import Mathlib

/-!
Verification development for `fireBaseStorage.py`, a Firebase storage client
offering `upload_file` (with optional tar.gz pre-archiving), `download_file`
(with optional extraction) and `delete_file`, plus the private helpers
`_archive_file` and `_extract`.

Shallow embedding conventions:
* a filesystem path is a list of characters (`FPath`);
* the local filesystem and the remote bucket are partial maps from paths to
  contents, carried in a `World`; every operation returns the new `World`
  together with `Except Err α`, since Python exceptions do not roll back
  filesystem state;
* tar.gz files on disk are kept in parsed form (`FileContent.targz` with the
  compression level and the list of entries); adding a file to a tar archive
  stores the byte view given by `contentBytes`;
* the SDK's transfer step in `upload_file` may fail for reasons invisible to
  the state (network errors); this is injected through an oracle argument
  `net : Option Nat` (`none` = transfer succeeds, `some e` = the SDK raises
  an opaque error `e`);
* character classes are modelled over ASCII: Python's `\w` is a letter, a
  digit or an underscore; names are assumed newline-free, so `.` in the
  regex is modelled as any character and `$` as end of string;
* directories are modelled only as far as the code touches them
  (`os.mkdir` in `download_file`, `os.path.exists`/`os.remove` behaviour);
  recursing into a directory with `tar.add`, or extracting over an existing
  directory, is outside the model.
-/

/-- Local or remote path: a string viewed as a list of characters. -/
abbrev FPath := List Char

/-- Python `\w` over ASCII: letter, digit or underscore. -/
def isWordChar (c : Char) : Bool :=
  c.isAlphanum || c = '_'

/-- Model of `re.sub(r'.\w+$', '.tar.gz', s)`: the regex engine scans
positions left to right and, thanks to the `$` anchor, matches at the first
position whose successor suffix is a nonempty run of word characters; the
match (one arbitrary character plus that run) is replaced by the literal
`.tar.gz`.  When no position matches, the string is returned unchanged. -/
def reSubExtTarGz : FPath → FPath
  | [] => []
  | c :: rest =>
      if !rest.isEmpty && rest.all isWordChar then
        ".tar.gz".data
      else
        c :: reSubExtTarGz rest

/-- Model of POSIX `os.path.split`: the tail is everything after the last
slash; the head is everything before it, with trailing slashes stripped
unless the head consists only of slashes. -/
def splitPath (p : FPath) : FPath × FPath :=
  let r := p.reverse
  let tl := (r.takeWhile (fun c => c ≠ '/')).reverse
  let hdR := r.dropWhile (fun c => c ≠ '/')
  let hd :=
    if hdR.all (fun c => c = '/') then hdR.reverse
    else (hdR.dropWhile (fun c => c = '/')).reverse
  (hd, tl)

/-- Model of POSIX `os.path.join` for two components: an absolute second
component wins; otherwise the components are glued with a single `/` unless
the first is empty or already ends in `/`. -/
def joinPath (a b : FPath) : FPath :=
  if b.head? = some '/' then b
  else if a.isEmpty || a.getLast? = some '/' then a ++ b
  else a ++ '/' :: b

/-- Model of `os.path.basename`. -/
def basenameP (p : FPath) : FPath := (splitPath p).2

/-- Content of a regular file on disk (or of a blob in the bucket): either
raw bytes, or a tar.gz archive kept in parsed form (compression level and
entries, each an entry name with its payload bytes). -/
inductive FileContent where
  | raw : List Nat → FileContent
  | targz : Nat → List (FPath × List Nat) → FileContent
deriving DecidableEq, Repr

/-- Byte view of a file, as read by `tar.add` or `upload_from_filename`.
Raw files are their bytes; an archive's on-disk bytes are an injective
serialization starting with the gzip magic bytes 31, 139. -/
def contentBytes : FileContent → List Nat
  | .raw b => b
  | .targz lvl es =>
      31 :: 139 :: lvl ::
        es.foldr (fun e acc =>
          e.1.length :: e.1.map Char.toNat ++ e.2.length :: e.2 ++ acc) []

/-- A filesystem node: a regular file with its content, or a directory with
its mode bits.  A path maps to at most one node, so a path is never both a
file and a directory. -/
inductive FsNode where
  | file : FileContent → FsNode
  | dir : Nat → FsNode
deriving DecidableEq, Repr

/-- State visible to the client: the local filesystem and the remote
bucket (the bucket handle obtained at construction). -/
structure World where
  fs : FPath → Option FsNode
  bucket : FPath → Option FileContent

/-- Pointwise update of a partial map over paths. -/
def upd {α : Type} (f : FPath → Option α) (p : FPath) (v : Option α) :
    FPath → Option α :=
  fun q => if q = p then v else f q

/-- Errors surfaced by the client, mirroring the Python exception types:
`FileNotFoundError` (with its message), the raw SDK `NotFound`,
`tarfile.ReadError`, `IsADirectoryError`, and opaque SDK transfer errors. -/
inductive Err where
  | fileNotFound : FPath → Err
  | notFound : Err
  | readError : Err
  | isADirectory : Err
  | sdkError : Nat → Err
deriving DecidableEq, Repr

/-- Model of `os.path.exists`. -/
def pathExists (w : World) (p : FPath) : Bool :=
  (w.fs p).isSome

/-- Model of the `if os.path.exists(p): os.remove(p)` pattern: a missing
path is skipped, a regular file is removed, and `os.remove` on a directory
raises `IsADirectoryError`. -/
def tryRemove (w : World) (p : FPath) : World × Except Err Unit :=
  if pathExists w p then
    match w.fs p with
    | some (.file _) => ({ w with fs := upd w.fs p none }, .ok ())
    | _ => (w, .error .isADirectory)
  else
    (w, .ok ())

/-- The message of the OS-level `FileNotFoundError`. -/
def msgNoSuchFile : FPath := "No such file or directory".data

/-- The message raised by `_extract` on a zero- or multi-entry archive. -/
def msgCantRecognize : FPath := "Cant recognize name of file".data

/-- The message `download_file` uses when translating the SDK's
`NotFound`. -/
def msgNotFoundOnServer : FPath := "File not found on server".data

/-- The client object: only the `folder` attribute set at construction is
relevant state; the bucket handle lives in `World`.  (`__init__` also loads
credentials and initializes the SDK app, which has no further effect on the
operations modelled here.) -/
structure FireBaseStorageClient where
  folder : Option FPath

/-- Truthiness of `self.folder` in `if self.folder:`: `None` and the empty
string are falsy, every nonempty string is truthy. -/
def folderTruthy : Option FPath → Bool
  | some f => !f.isEmpty
  | none => false

namespace FireBaseStorageClient

/-- The archive path `_archive_file` derives for an input path: same
directory, name given by the regex substitution. -/
def tarPathOf (path : FPath) : FPath :=
  joinPath (splitPath path).1 (reSubExtTarGz (splitPath path).2)

/-- Model of `_archive_file(path)`:
`head, tail = os.path.split(path)`;
`output_filename = re.sub(r'.\w+$', '.tar.gz', tail)`;
`tarfile.TarFile.gzopen(join(head, output_filename), 'w', compresslevel=5)`
creates (truncates) the archive file on disk;
`tar.add(path, arcname=os.path.basename(path))` then reads the input file —
so when the derived archive path coincides with the input path, it reads
the just-truncated archive, not the original content;
returns the archive path.  `tar.add` on a missing input raises the OS
`FileNotFoundError`; a directory input (which real `tar.add` would recurse
into) is outside the model and mapped to `IsADirectoryError`. -/
def _archive_file (w : World) (path : FPath) : World × Except Err FPath :=
  let tail := (splitPath path).2
  let outPath := tarPathOf path
  let w1 : World := { w with fs := upd w.fs outPath (some (.file (.targz 5 []))) }
  match w1.fs path with
  | some (.file c) =>
      ({ w1 with
          fs := upd w1.fs outPath (some (.file (.targz 5 [(tail, contentBytes c)]))) },
        .ok outPath)
  | some (.dir _) => (w1, .error .isADirectory)
  | none => (w1, .error (.fileNotFound msgNoSuchFile))

/-- Model of `tf.extractall(path=head)`: each member is written (created or
overwritten) at `join(head, name)` as a raw file with the member's bytes. -/
def extractAll (fs0 : FPath → Option FsNode) (head : FPath)
    (entries : List (FPath × List Nat)) : FPath → Option FsNode :=
  entries.foldl (fun f e => upd f (joinPath head e.1) (some (.file (.raw e.2)))) fs0

/-- Model of `_extract(path)`:
`head, tail = os.path.split(path)`; `tf = tarfile.open(path)` (missing file
raises the OS `FileNotFoundError`, a directory raises `IsADirectoryError`, a
non-archive raises `tarfile.ReadError`); if the archive has exactly one
member its name is taken, otherwise `FileNotFoundError('Cant recognize name
of file')` is raised before anything is extracted; `tf.extractall(path=head)`
extracts into the parent directory; then
`if os.path.exists(path): os.remove(path)` deletes the archive; returns
`join(head, filename)`. -/
def _extract (w : World) (path : FPath) : World × Except Err FPath :=
  let head := (splitPath path).1
  match w.fs path with
  | none => (w, .error (.fileNotFound msgNoSuchFile))
  | some (.dir _) => (w, .error .isADirectory)
  | some (.file (.raw _)) => (w, .error .readError)
  | some (.file (.targz _ entries)) =>
      match entries with
      | [e] =>
          let w1 : World := { w with fs := extractAll w.fs head entries }
          let (w2, r) := tryRemove w1 path
          match r with
          | .ok _ => (w2, .ok (joinPath head e.1))
          | .error err => (w2, .error err)
      | _ => (w, .error (.fileNotFound msgCantRecognize))

/-- Model of `upload_file(file, archive=False)`:
`tar = self._archive_file(file) if archive else file`;
`head, file_name = os.path.split(tar)`;
`url = self.folder + '/' + file_name if self.folder else file_name`;
`blob.upload_from_filename(tar)` reads the local file (missing file raises
the OS `FileNotFoundError`, a directory raises `IsADirectoryError`) and
transfers its bytes to the bucket under `url`, with full overwrite; the
`net` oracle injects SDK transfer failures, which propagate uninterpreted;
on success, `if os.path.exists(file): os.remove(file)` and
`if os.path.exists(tar): os.remove(tar)` clean up; returns `url`. -/
def upload_file (c : FireBaseStorageClient) (net : Option Nat) (w : World)
    (file : FPath) (archive : Bool) : World × Except Err FPath :=
  let step : World × Except Err FPath :=
    if archive then _archive_file w file else (w, .ok file)
  match step with
  | (w1, .error e) => (w1, .error e)
  | (w1, .ok tar) =>
    let file_name := (splitPath tar).2
    let url :=
      if folderTruthy c.folder then (c.folder.getD []) ++ '/' :: file_name
      else file_name
    match w1.fs tar with
    | none => (w1, .error (.fileNotFound msgNoSuchFile))
    | some (.dir _) => (w1, .error .isADirectory)
    | some (.file content) =>
      match net with
      | some e => (w1, .error (.sdkError e))
      | none =>
        let w2 : World := { w1 with bucket := upd w1.bucket url (some content) }
        let (w3, r1) := tryRemove w2 file
        match r1 with
        | .error e => (w3, .error e)
        | .ok _ =>
          let (w4, r2) := tryRemove w3 tar
          match r2 with
          | .error e => (w4, .error e)
          | .ok _ => (w4, .ok url)

/-- Model of `download_file(url, to_path, extract=False)`:
`if not os.path.exists(to_path): os.mkdir(to_path, 0o755)`;
`path = os.path.join(to_path, os.path.split(url)[1])`;
`blob.download_to_filename(path)` creates the local file and, when the
remote object is missing, leaves it empty while the SDK's `NotFound` is
caught and re-raised as `FileNotFoundError('File not found on server')`;
on success the object's content lands at `path`; finally
`self._extract(path) if extract else path` is returned. -/
def download_file (c : FireBaseStorageClient) (w : World) (url to_path : FPath)
    (extract : Bool) : World × Except Err FPath :=
  let w1 : World :=
    if pathExists w to_path then w
    else { w with fs := upd w.fs to_path (some (.dir 0o755)) }
  let path := joinPath to_path (splitPath url).2
  let w2 : World := { w1 with fs := upd w1.fs path (some (.file (.raw []))) }
  match w1.bucket url with
  | none => (w2, .error (.fileNotFound msgNotFoundOnServer))
  | some content =>
    let w3 : World := { w2 with fs := upd w2.fs path (some (.file content)) }
    if extract then _extract w3 path else (w3, .ok path)

/-- Model of `delete_file(url)`: `blob.delete()` with no existence
pre-check; the SDK raises its raw `NotFound` when the object is missing,
and the client propagates it uninterpreted. -/
def delete_file (c : FireBaseStorageClient) (w : World) (url : FPath) :
    World × Except Err Unit :=
  match w.bucket url with
  | none => (w, .error .notFound)
  | some _ => ({ w with bucket := upd w.bucket url none }, .ok ())

end FireBaseStorageClient

/-! Helper lemmas about paths and map updates. -/

theorem upd_same {α : Type} (f : FPath → Option α) (p : FPath) (v : Option α) :
    upd f p v p = v := by
  simp [upd]

theorem upd_other {α : Type} (f : FPath → Option α) (p : FPath) (v : Option α)
    (q : FPath) (h : q ≠ p) : upd f p v q = f q := by
  simp [upd, h]

theorem upd_upd_same {α : Type} (f : FPath → Option α) (p : FPath)
    (v1 v2 : Option α) : upd (upd f p v1) p v2 = upd f p v2 := by
  funext q
  by_cases h : q = p <;> simp [upd, h]

theorem takeWhile_append_all {α : Type} (p : α → Bool) (l1 l2 : List α)
    (h : l1.all p) : (l1 ++ l2).takeWhile p = l1 ++ l2.takeWhile p := by
  induction l1 with
  | nil => simp
  | cons a l ih =>
      simp only [List.all_cons, Bool.and_eq_true] at h
      simp [List.takeWhile_cons, h.1, ih h.2]

theorem dropWhile_append_all {α : Type} (p : α → Bool) (l1 l2 : List α)
    (h : l1.all p) : (l1 ++ l2).dropWhile p = l2.dropWhile p := by
  induction l1 with
  | nil => simp
  | cons a l ih =>
      simp only [List.all_cons, Bool.and_eq_true] at h
      simp [List.dropWhile_cons, h.1, ih h.2]

theorem takeWhile_head_false {α : Type} (p : α → Bool) (a : α) (l : List α)
    (h : p a = false) : (a :: l).takeWhile p = [] := by
  simp [List.takeWhile_cons, h]

theorem dropWhile_head_false {α : Type} (p : α → Bool) (a : α) (l : List α)
    (h : p a = false) : (a :: l).dropWhile p = a :: l := by
  simp [List.dropWhile_cons, h]

/-- Splitting a path assembled from a clean head (either all slashes or not
ending in a slash) and a nonempty slash-free tail recovers the pieces. -/
theorem splitPath_joinPath (h t : FPath) (ht : t ≠ [])
    (hts : t.all (fun c => c ≠ '/') = true)
    (hh : h.all (fun c => c = '/') = true ∨ h.getLast? ≠ some '/') :
    splitPath (joinPath h t) = (h, t) := by
  have hthead : t.head? ≠ some '/' := by
    cases t with
    | nil => simp
    | cons a l =>
        simp only [List.all_cons, Bool.and_eq_true, decide_eq_true_eq] at hts
        simp [hts.1]
  have htrev : ∀ x ∈ t.reverse, (fun c => decide (c ≠ '/')) x = true := by
    intro x hx
    rw [List.mem_reverse] at hx
    simpa using List.all_eq_true.mp hts x hx
  rcases em (h = []) with rfl | hne
  · have hj : joinPath [] t = t := by
      simp [joinPath, hthead]
    rw [hj]
    simp only [splitPath]
    rw [List.takeWhile_eq_self_iff.mpr htrev, List.dropWhile_eq_nil_iff.mpr htrev]
    simp
  · rcases em (h.getLast? = some '/') with hl | hl
    · -- head ends in '/': hh forces it to be all slashes; join is h ++ t
      have hall : h.all (fun c => c = '/') = true := by
        rcases hh with hall | hne2
        · exact hall
        · exact absurd hl hne2
      have hj : joinPath h t = h ++ t := by
        simp [joinPath, hthead, hl]
      have hrevcons : ∃ rest, h.reverse = '/' :: rest := by
        have : h.reverse.head? = some '/' := by rw [List.head?_reverse]; exact hl
        cases hrv : h.reverse with
        | nil => rw [hrv] at this; simp at this
        | cons a rest =>
            rw [hrv] at this
            simp only [List.head?_cons, Option.some.injEq] at this
            exact ⟨rest, by rw [this]⟩
      obtain ⟨rest, hrv⟩ := hrevcons
      have hrall : ∀ x ∈ h.reverse, (fun c => decide (c = '/')) x = true := by
        intro x hx
        rw [List.mem_reverse] at hx
        simpa using List.all_eq_true.mp hall x hx
      rw [hj]
      simp only [splitPath, List.reverse_append]
      rw [takeWhile_append_all _ _ _ (List.all_eq_true.mpr htrev),
          dropWhile_append_all _ _ _ (List.all_eq_true.mpr htrev)]
      rw [hrv]
      have h1 : List.takeWhile (fun c => decide (c ≠ '/')) ('/' :: rest) = [] := by
        simp [List.takeWhile_cons]
      have h2 : List.dropWhile (fun c => decide (c ≠ '/')) ('/' :: rest) = '/' :: rest := by
        simp [List.dropWhile_cons]
      rw [h1, h2, ← hrv]
      rw [if_pos (List.all_eq_true.mpr hrall)]
      simp
    · -- head does not end in '/': join is h ++ '/' :: t
      have hj : joinPath h t = h ++ '/' :: t := by
        have : (h.isEmpty || h.getLast? = some '/') = false := by
          simp [List.isEmpty_iff, hne, hl]
        simp [joinPath, hthead, this]
      have hrevcons : ∃ c rest, h.reverse = c :: rest ∧ c ≠ '/' := by
        cases hrv : h.reverse with
        | nil => exact absurd (by simpa using congrArg List.reverse hrv) hne
        | cons a rest =>
            refine ⟨a, rest, rfl, ?_⟩
            intro hc
            apply hl
            rw [← List.head?_reverse, hrv, hc]
            rfl
      obtain ⟨c, rest, hrv, hcne⟩ := hrevcons
      rw [hj]
      have : (h ++ '/' :: t).reverse = t.reverse ++ '/' :: h.reverse := by
        simp [List.reverse_append]
      rw [splitPath]
      simp only [this]
      rw [takeWhile_append_all _ _ _ (List.all_eq_true.mpr htrev),
          dropWhile_append_all _ _ _ (List.all_eq_true.mpr htrev)]
      have h1 : List.takeWhile (fun c => decide (c ≠ '/')) ('/' :: h.reverse) = [] := by
        simp [List.takeWhile_cons]
      have h2 : List.dropWhile (fun c => decide (c ≠ '/')) ('/' :: h.reverse) = '/' :: h.reverse := by
        simp [List.dropWhile_cons]
      rw [h1, h2]
      have hnall : (('/' :: h.reverse).all fun c => decide (c = '/')) = false := by
        rw [hrv]
        rw [Bool.eq_false_iff]
        intro hcon
        simp only [List.all_cons, Bool.and_eq_true, decide_eq_true_eq] at hcon
        exact hcne hcon.2.1
      rw [if_neg (by rw [hnall]; exact Bool.false_ne_true)]
      have h3 : List.dropWhile (fun c => decide (c = '/')) ('/' :: h.reverse) =
          List.dropWhile (fun c => decide (c = '/')) h.reverse := by
        simp [List.dropWhile_cons]
      have h4 : List.dropWhile (fun c => decide (c = '/')) h.reverse = h.reverse := by
        rw [hrv]
        simp [List.dropWhile_cons, hcne]
      rw [h3, h4]
      simp


namespace FireBaseStorageClient

/-- Full description of `_archive_file` on an existing regular file whose
derived archive path differs from its own path: the archive (compression
level 5, single entry named after the file's base name, payload the file's
bytes) is written at the derived path, nothing else changes, and the
derived path is returned. -/
theorem archive_file_ok (w : World) (path : FPath) (c : FileContent)
    (hfs : w.fs path = some (.file c))
    (hne : tarPathOf path ≠ path) :
    _archive_file w path =
      ({ w with
          fs := upd w.fs (tarPathOf path)
            (some (.file (.targz 5 [((splitPath path).2, contentBytes c)]))) },
        .ok (tarPathOf path)) := by
  have h1 : upd w.fs (tarPathOf path) (some (.file (.targz 5 []))) path
      = some (.file c) := by
    rw [upd_other _ _ _ _ (Ne.symm hne)]
    exact hfs
  simp only [_archive_file]
  rw [h1]
  simp only [upd_upd_same]

/-- Full description of `_extract` on a single-entry archive whose entry
lands at a path different from the archive's own: the entry is written into
the parent directory, the archive file is then removed, and the entry's
path is returned. -/
theorem extract_ok (w : World) (path : FPath) (lvl : Nat) (name : FPath)
    (bytes : List Nat)
    (hfs : w.fs path = some (.file (.targz lvl [(name, bytes)])))
    (hne : joinPath (splitPath path).1 name ≠ path) :
    _extract w path =
      ({ w with
          fs := upd (upd w.fs (joinPath (splitPath path).1 name)
              (some (.file (.raw bytes)))) path none },
        .ok (joinPath (splitPath path).1 name)) := by
  have h1 : upd w.fs (joinPath (splitPath path).1 name)
      (some (.file (.raw bytes))) path = some (.file (.targz lvl [(name, bytes)])) := by
    rw [upd_other _ _ _ _ (Ne.symm hne)]
    exact hfs
  simp only [_extract, extractAll]
  rw [hfs]
  simp only [List.foldl_cons, List.foldl_nil, tryRemove, pathExists]
  rw [h1]
  simp

end FireBaseStorageClient

namespace FireBaseStorageClient

/-- Inversion of a successful non-archived upload: the transfer must have
succeeded, the returned key is the (folder-prefixed) base name of the file,
the original file is gone from local disk, and no other local path
changed. -/
theorem upload_file_plain_inv (c : FireBaseStorageClient) (net : Option Nat)
    (w wr : World) (file url : FPath)
    (h : upload_file c net w file false = (wr, Except.ok url)) :
    net = none ∧
    url = (if folderTruthy c.folder
           then c.folder.getD [] ++ '/' :: basenameP file
           else basenameP file) ∧
    wr.fs file = none ∧
    (∀ q, q ≠ file → wr.fs q = w.fs q) := by
  unfold upload_file at h
  simp only [Bool.false_eq_true, if_false] at h
  split at h
  next => simp at h
  next m heq => simp at h
  next content heq =>
    split at h
    next e => simp at h
    next =>
      simp only [tryRemove, pathExists] at h
      rw [heq] at h
      simp only [Option.isSome_some, if_true] at h
      simp only [upd_same, Option.isSome_none, Bool.false_eq_true, if_false] at h
      rw [Prod.mk.injEq] at h
      obtain ⟨hw, hu⟩ := h
      simp only [Except.ok.injEq] at hu
      subst hw
      subst hu
      refine ⟨rfl, ?_, ?_, ?_⟩
      · rfl
      · simp [upd_same]
      · intro q hq
        simp [upd_other _ _ _ _ hq]

/-- Inversion of a successful archived upload: the transfer must have
succeeded, the returned key is the (folder-prefixed) base name of the
derived archive path, both the original file and the temporary archive are
gone from local disk, and no other local path changed. -/
theorem upload_file_arch_inv (c : FireBaseStorageClient) (net : Option Nat)
    (w wr : World) (file url : FPath)
    (h : upload_file c net w file true = (wr, Except.ok url)) :
    net = none ∧
    url = (if folderTruthy c.folder
           then c.folder.getD [] ++ '/' :: basenameP (tarPathOf file)
           else basenameP (tarPathOf file)) ∧
    wr.fs file = none ∧
    wr.fs (tarPathOf file) = none ∧
    (∀ q, q ≠ file → q ≠ tarPathOf file → wr.fs q = w.fs q) := by
  set T := tarPathOf file with hT
  clear_value T
  unfold upload_file at h
  simp only [if_true] at h
  split at h
  next w1 e heq => simp at h
  next w1 tar heq =>
    unfold _archive_file at heq
    rw [← hT] at heq
    dsimp only at heq
    split at heq
    next cprime heq2 =>
      rw [Prod.mk.injEq] at heq
      obtain ⟨hw1, htar⟩ := heq
      simp only [Except.ok.injEq] at htar
      subst hw1
      subst htar
      dsimp only at h
      rw [upd_upd_same] at h
      simp only [upd_same] at h
      split at h
      next e => simp at h
      next =>
        simp only [tryRemove, pathExists] at h
        by_cases hft : file = T
        · subst hft
          simp only [upd_same, upd_upd_same, Option.isSome_some, if_true,
            Option.isSome_none, Bool.false_eq_true, if_false] at h
          rw [Prod.mk.injEq] at h
          obtain ⟨hw, hu⟩ := h
          simp only [Except.ok.injEq] at hu
          subst hw
          subst hu
          refine ⟨rfl, rfl, ?_, ?_, ?_⟩
          · simp [upd_same, upd_upd_same]
          · simp [upd_same, upd_upd_same]
          · intro q hq hqT
            simp [upd_other _ _ _ _ hqT]
        · have e1 : upd w.fs T
              (some (.file (.targz 5 [((splitPath file).2, contentBytes cprime)]))) file
              = w.fs file := upd_other _ _ _ _ hft
          rw [upd_other _ _ _ _ hft] at heq2
          rw [e1, heq2] at h
          simp only [Option.isSome_some, if_true] at h
          have e2 : upd (upd w.fs T
              (some (.file (.targz 5 [((splitPath file).2, contentBytes cprime)]))))
              file none T
              = some (.file (.targz 5 [((splitPath file).2, contentBytes cprime)])) := by
            rw [upd_other _ _ _ _ (Ne.symm hft), upd_same]
          rw [e2] at h
          simp only [Option.isSome_some, if_true] at h
          rw [Prod.mk.injEq] at h
          obtain ⟨hw, hu⟩ := h
          simp only [Except.ok.injEq] at hu
          subst hw
          subst hu
          refine ⟨rfl, rfl, ?_, ?_, ?_⟩
          · simp only [upd_other _ _ _ _ hft, upd_same]
          · simp only [upd_same]
          · intro q hq hqT
            simp only [upd_other _ _ _ _ hqT, upd_other _ _ _ _ hq]
    next m heq2 => simp at heq
    next heq2 => simp at heq

end FireBaseStorageClient

/-! Concrete worlds used by witnesses and counterexamples. -/

/-- A world holding a single regular file `dir/file.txt`. -/
def wFile : World :=
  { fs := upd (fun _ => none) ("dir/file.txt".data) (some (.file (.raw [7, 8]))),
    bucket := fun _ => none }

/-- A world holding a zero-entry archive at `d/a.tar.gz`. -/
def wEmptyArc : World :=
  { fs := upd (fun _ => none) ("d/a.tar.gz".data) (some (.file (.targz 5 []))),
    bucket := fun _ => none }

namespace FireBaseStorageClient

/-- C1: a successful `upload_file` call deletes the caller's original file
from local disk (the destructive default); with `archive=True` the
temporary archive file is removed as well, and no other local path is
touched (the remote bucket, which the upload intentionally writes, is not
local disk). -/
theorem upload_file_success_deletes_local (c : FireBaseStorageClient)
    (net : Option Nat) (w wr : World) (file url : FPath) (a : Bool)
    (h : upload_file c net w file a = (wr, Except.ok url)) :
    wr.fs file = none ∧
    (a = true → wr.fs (tarPathOf file) = none) ∧
    (∀ q, q ≠ file → (a = true → q ≠ tarPathOf file) → wr.fs q = w.fs q) := by
  cases a with
  | false =>
      obtain ⟨-, -, h3, h4⟩ := upload_file_plain_inv c net w wr file url h
      refine ⟨h3, by simp, ?_⟩
      intro q hq _
      exact h4 q hq
  | true =>
      obtain ⟨-, -, h3, h4, h5⟩ := upload_file_arch_inv c net w wr file url h
      refine ⟨h3, fun _ => h4, ?_⟩
      intro q hq hqT
      exact h5 q hq (hqT rfl)

/-- Witness for C1 at an archived upload of `dir/file.txt`. -/
theorem upload_file_success_deletes_local_witness :
    upload_file ⟨some ("data".data)⟩ none wFile ("dir/file.txt".data) true =
      ((upload_file ⟨some ("data".data)⟩ none wFile ("dir/file.txt".data) true).1,
        Except.ok ("data/file.tar.gz".data)) ∧
    ((upload_file ⟨some ("data".data)⟩ none wFile ("dir/file.txt".data) true).1.fs
        ("dir/file.txt".data) = none ∧
      (true = true →
        (upload_file ⟨some ("data".data)⟩ none wFile ("dir/file.txt".data) true).1.fs
          (tarPathOf ("dir/file.txt".data)) = none) ∧
      (∀ q, q ≠ ("dir/file.txt".data) →
        (true = true → q ≠ tarPathOf ("dir/file.txt".data)) →
        (upload_file ⟨some ("data".data)⟩ none wFile ("dir/file.txt".data) true).1.fs q
          = wFile.fs q)) :=
  ⟨rfl, upload_file_success_deletes_local ⟨some ("data".data)⟩ none wFile _
    ("dir/file.txt".data) ("data/file.tar.gz".data) true rfl⟩

/-- C2: `_extract` on an archive with zero entries or more than one entry
fails with the archive-shape error `FileNotFoundError('Cant recognize name
of file')`, extracts nothing, and leaves the archive (and the rest of the
world) untouched. -/
theorem extract_bad_shape (w : World) (path : FPath) (lvl : Nat)
    (entries : List (FPath × List Nat))
    (hfs : w.fs path = some (.file (.targz lvl entries)))
    (hlen : entries.length ≠ 1) :
    _extract w path = (w, .error (.fileNotFound msgCantRecognize)) := by
  unfold _extract
  rw [hfs]
  cases entries with
  | nil => rfl
  | cons e rest =>
      cases rest with
      | nil => exact absurd rfl hlen
      | cons e2 rest2 => rfl

/-- Witness for C2 at a zero-entry archive. -/
theorem extract_bad_shape_witness :
    wEmptyArc.fs ("d/a.tar.gz".data) = some (.file (.targz 5 [])) ∧
    ([] : List (FPath × List Nat)).length ≠ 1 ∧
    _extract wEmptyArc ("d/a.tar.gz".data) =
      (wEmptyArc, .error (.fileNotFound msgCantRecognize)) :=
  ⟨by decide, by decide,
    extract_bad_shape wEmptyArc ("d/a.tar.gz".data) 5 [] (by decide) (by decide)⟩

end FireBaseStorageClient

/-- A world holding a single-entry archive `d/x` whose entry is itself
named `x`, so extraction targets the archive's own path. -/
def wCollide : World :=
  { fs := upd (fun _ => none) ("d/x".data)
      (some (.file (.targz 5 [("x".data, [9])]))),
    bucket := fun _ => none }

/-- A world holding a single-entry archive `d/a.tar.gz` with entry
`a.txt`. -/
def wGoodArc : World :=
  { fs := upd (fun _ => none) ("d/a.tar.gz".data)
      (some (.file (.targz 5 [("a.txt".data, [5])]))),
    bucket := fun _ => none }

namespace FireBaseStorageClient

/-- C3 counterexample: the archive `d/x` contains exactly one entry, named
`x`, so `parentDir/entryName` is the archive's own path `d/x`.  `_extract`
then overwrites the archive with the extracted entry and the final
`os.remove` deletes it, so after the call the extracted file is gone: the
claim's conjunction — entry extracted into the parent directory and
archive deleted — is unsatisfiable at this input even though the call
returns `d/x` successfully. -/
theorem extract_single_entry_collision_cex :
    wCollide.fs ("d/x".data) = some (.file (.targz 5 [("x".data, [9])])) ∧
    joinPath (splitPath ("d/x".data)).1 ("x".data) = ("d/x".data) ∧
    (_extract wCollide ("d/x".data)).2 = Except.ok ("d/x".data) ∧
    (_extract wCollide ("d/x".data)).1.fs ("d/x".data) = none ∧
    ¬ ((_extract wCollide ("d/x".data)).1.fs
          (joinPath (splitPath ("d/x".data)).1 ("x".data)) =
            some (.file (.raw [9])) ∧
        (_extract wCollide ("d/x".data)).1.fs ("d/x".data) = none) :=
  ⟨by decide, by decide, rfl, by decide, fun hcon => absurd hcon.1 (by decide)⟩

/-- C3 (amended): for every archive containing exactly one entry whose
target path `parentDir/entryName` differs from the archive's own path,
`_extract` writes the entry into the parent directory, deletes the archive
file, and returns `parentDir/entryName`. -/
theorem extract_single_entry_ok (w : World) (path : FPath) (lvl : Nat)
    (name : FPath) (bytes : List Nat)
    (hfs : w.fs path = some (.file (.targz lvl [(name, bytes)])))
    (hne : joinPath (splitPath path).1 name ≠ path) :
    _extract w path =
      ({ w with
          fs := upd (upd w.fs (joinPath (splitPath path).1 name)
              (some (.file (.raw bytes)))) path none },
        .ok (joinPath (splitPath path).1 name)) :=
  extract_ok w path lvl name bytes hfs hne

/-- Witness for the amended C3 at the archive `d/a.tar.gz` with entry
`a.txt`. -/
theorem extract_single_entry_ok_witness :
    wGoodArc.fs ("d/a.tar.gz".data) =
      some (.file (.targz 5 [("a.txt".data, [5])])) ∧
    joinPath (splitPath ("d/a.tar.gz".data)).1 ("a.txt".data) ≠ ("d/a.tar.gz".data) ∧
    _extract wGoodArc ("d/a.tar.gz".data) =
      ({ wGoodArc with
          fs := upd (upd wGoodArc.fs
              (joinPath (splitPath ("d/a.tar.gz".data)).1 ("a.txt".data))
              (some (.file (.raw [5])))) ("d/a.tar.gz".data) none },
        .ok (joinPath (splitPath ("d/a.tar.gz".data)).1 ("a.txt".data))) :=
  ⟨by decide, by decide,
    extract_single_entry_ok wGoodArc ("d/a.tar.gz".data) 5 ("a.txt".data) [5]
      (by decide) (by decide)⟩

/-- C4: the remote key returned by a successful upload is the base name of
the transfer unit (the derived archive when `archive=True`, the file
itself otherwise), prefixed by `folder + "/"` when a nonempty folder was
set at construction (`if self.folder:` tests truthiness, so "set" means a
truthy folder). -/
theorem upload_file_remote_key (c : FireBaseStorageClient) (net : Option Nat)
    (w wr : World) (file url : FPath) (a : Bool)
    (h : upload_file c net w file a = (wr, Except.ok url)) :
    (c.folder = none → url = basenameP (if a then tarPathOf file else file)) ∧
    (∀ f, c.folder = some f → f ≠ [] →
        url = f ++ '/' :: basenameP (if a then tarPathOf file else file)) := by
  have hu : url = (if folderTruthy c.folder
      then c.folder.getD [] ++ '/' :: basenameP (if a then tarPathOf file else file)
      else basenameP (if a then tarPathOf file else file)) := by
    cases a with
    | false => simpa using (upload_file_plain_inv c net w wr file url h).2.1
    | true => simpa using (upload_file_arch_inv c net w wr file url h).2.1
  constructor
  · intro hf
    rw [hu, hf]
    simp [folderTruthy]
  · intro f hf hne
    rw [hu, hf]
    simp [folderTruthy, hne]

/-- Witness for C4 at a plain upload with folder `data`. -/
theorem upload_file_remote_key_witness :
    upload_file ⟨some ("data".data)⟩ none wFile ("dir/file.txt".data) false =
      ((upload_file ⟨some ("data".data)⟩ none wFile ("dir/file.txt".data) false).1,
        Except.ok ("data/file.txt".data)) ∧
    ((FireBaseStorageClient.mk (some ("data".data))).folder = none →
        ("data/file.txt".data : FPath) =
          basenameP (if false then tarPathOf ("dir/file.txt".data)
                     else ("dir/file.txt".data))) ∧
    (∀ f, (FireBaseStorageClient.mk (some ("data".data))).folder = some f → f ≠ [] →
        ("data/file.txt".data : FPath) =
          f ++ '/' :: basenameP (if false then tarPathOf ("dir/file.txt".data)
                                 else ("dir/file.txt".data))) :=
  ⟨rfl,
    (upload_file_remote_key ⟨some ("data".data)⟩ none wFile _
      ("dir/file.txt".data) ("data/file.txt".data) false rfl).1,
    (upload_file_remote_key ⟨some ("data".data)⟩ none wFile _
      ("dir/file.txt".data) ("data/file.txt".data) false rfl).2⟩

end FireBaseStorageClient

namespace FireBaseStorageClient

/-- C5: downloading a key that is absent from the bucket fails with the
uniform translated error `FileNotFoundError('File not found on server')` —
the SDK's raw `NotFound` signal is caught at the boundary and never
propagated. -/
theorem download_file_missing_key (c : FireBaseStorageClient) (w : World)
    (url to_path : FPath) (ex : Bool)
    (hb : w.bucket url = none) :
    (download_file c w url to_path ex).2 =
      Except.error (.fileNotFound msgNotFoundOnServer) ∧
    (download_file c w url to_path ex).2 ≠ Except.error Err.notFound := by
  have key : (download_file c w url to_path ex).2 =
      Except.error (.fileNotFound msgNotFoundOnServer) := by
    unfold download_file
    dsimp only
    split
    next heq => rfl
    next content heq =>
      exfalso
      split at heq
      · rw [hb] at heq
        cases heq
      · dsimp only at heq
        rw [hb] at heq
        cases heq
  exact ⟨key, by simp [key]⟩

/-- Witness for C5 at an empty bucket. -/
theorem download_file_missing_key_witness :
    wFile.bucket ("data/q.txt".data) = none ∧
    (download_file ⟨some ("data".data)⟩ wFile ("data/q.txt".data) ("out".data)
        false).2 = Except.error (.fileNotFound msgNotFoundOnServer) ∧
    (download_file ⟨some ("data".data)⟩ wFile ("data/q.txt".data) ("out".data)
        false).2 ≠ Except.error Err.notFound :=
  ⟨rfl,
    (download_file_missing_key ⟨some ("data".data)⟩ wFile ("data/q.txt".data)
      ("out".data) false rfl).1,
    (download_file_missing_key ⟨some ("data".data)⟩ wFile ("data/q.txt".data)
      ("out".data) false rfl).2⟩

/-- C9: `delete_file` issues the bucket deletion without any existence
pre-check: on a missing key the SDK's raw `NotFound` propagates
uninterpreted — never the translated file-not-found that `download_file`
uses — and on an existing key the object is removed from the bucket. -/
theorem delete_file_spec (c : FireBaseStorageClient) (w : World) (url : FPath) :
    (w.bucket url = none →
        delete_file c w url = (w, Except.error Err.notFound) ∧
        (∀ m, (delete_file c w url).2 ≠ Except.error (Err.fileNotFound m))) ∧
    (∀ content, w.bucket url = some content →
        delete_file c w url =
          ({ w with bucket := upd w.bucket url none }, Except.ok ())) := by
  constructor
  · intro hb
    have key : delete_file c w url = (w, Except.error Err.notFound) := by
      unfold delete_file
      rw [hb]
    refine ⟨key, ?_⟩
    intro m
    simp [key]
  · intro content hb
    unfold delete_file
    rw [hb]

/-- Witness for C9: a missing key propagates `NotFound` raw, an existing
key is removed. -/
theorem delete_file_spec_witness :
    (delete_file ⟨none⟩ wFile ("k".data) = (wFile, Except.error Err.notFound)) ∧
    (delete_file ⟨none⟩
        { fs := fun _ => none,
          bucket := upd (fun _ => none) ("k".data) (some (.raw [1])) } ("k".data) =
      ({ fs := fun _ => none,
          bucket := upd (upd (fun _ => none) ("k".data) (some (.raw [1])))
            ("k".data) none },
        Except.ok ())) :=
  ⟨((delete_file_spec ⟨none⟩ wFile ("k".data)).1 rfl).1,
    (delete_file_spec ⟨none⟩
        { fs := fun _ => none,
          bucket := upd (fun _ => none) ("k".data) (some (.raw [1])) }
        ("k".data)).2 (.raw [1]) rfl⟩

/-- C10: a client constructed with the empty-string folder behaves exactly
as one constructed with no folder — `if self.folder:` tests truthiness, so
the returned remote key is the bare base name with no leading
separator. -/
theorem upload_file_empty_folder (net : Option Nat) (w : World) (file : FPath)
    (a : Bool) :
    upload_file ⟨some []⟩ net w file a = upload_file ⟨none⟩ net w file a ∧
    (∀ wr url, upload_file ⟨some []⟩ net w file a = (wr, Except.ok url) →
        url = basenameP (if a then tarPathOf file else file)) := by
  constructor
  · rfl
  · intro wr url h
    cases a with
    | false => simpa [folderTruthy] using (upload_file_plain_inv _ net w wr file url h).2.1
    | true => simpa [folderTruthy] using (upload_file_arch_inv _ net w wr file url h).2.1

/-- Witness for C10 at a plain upload of `dir/file.txt`. -/
theorem upload_file_empty_folder_witness :
    (upload_file ⟨some []⟩ none wFile ("dir/file.txt".data) false =
      upload_file ⟨none⟩ none wFile ("dir/file.txt".data) false) ∧
    ("file.txt".data : FPath) =
      basenameP (if false then tarPathOf ("dir/file.txt".data)
                 else ("dir/file.txt".data)) :=
  ⟨(upload_file_empty_folder none wFile ("dir/file.txt".data) false).1,
    (upload_file_empty_folder none wFile ("dir/file.txt".data) false).2
      (upload_file ⟨some []⟩ none wFile ("dir/file.txt".data) false).1
      ("file.txt".data) rfl⟩

end FireBaseStorageClient

namespace FireBaseStorageClient

/-- C6: when the SDK transfer step fails, the error propagates
uninterpreted as the SDK raised it, and no local cleanup runs: the
original file — and, with `archive=True`, the already-created temporary
archive — remain on local disk; the bucket is unchanged, and with
`archive=False` the whole world is untouched. -/
theorem upload_file_transfer_failure (c : FireBaseStorageClient) (w wr : World)
    (file : FPath) (a : Bool) (e : Nat) (r : Except Err FPath)
    (cf : FileContent)
    (hfs : w.fs file = some (.file cf))
    (h : upload_file c (some e) w file a = (wr, r)) :
    r = Except.error (.sdkError e) ∧
    wr.fs file ≠ none ∧
    (a = true → wr.fs (tarPathOf file) ≠ none) ∧
    (∀ q, q ≠ tarPathOf file → wr.fs q = w.fs q) ∧
    wr.bucket = w.bucket ∧
    (a = false → wr = w) := by
  cases a with
  | false =>
      unfold upload_file at h
      simp only [Bool.false_eq_true, if_false] at h
      rw [hfs] at h
      dsimp only at h
      rw [Prod.mk.injEq] at h
      obtain ⟨hw, hr⟩ := h
      subst hw
      subst hr
      refine ⟨rfl, ?_, by simp, fun q _ => rfl, rfl, fun _ => rfl⟩
      rw [hfs]
      simp
  | true =>
      set T := tarPathOf file with hT
      clear_value T
      unfold upload_file at h
      simp only [if_true] at h
      unfold _archive_file at h
      rw [← hT] at h
      dsimp only at h
      by_cases hft : file = T
      · subst hft
        simp only [upd_same] at h
        rw [Prod.mk.injEq] at h
        obtain ⟨hw, hr⟩ := h
        subst hw
        subst hr
        refine ⟨rfl, ?_, fun _ => ?_, ?_, rfl, fun hcon => by cases hcon⟩
        · simp [upd_same]
        · simp [upd_same]
        · intro q hq
          simp [upd_other _ _ _ _ hq]
      · rw [upd_other _ _ _ _ hft, hfs] at h
        dsimp only at h
        rw [upd_upd_same] at h
        simp only [upd_same] at h
        rw [Prod.mk.injEq] at h
        obtain ⟨hw, hr⟩ := h
        subst hw
        subst hr
        refine ⟨rfl, ?_, fun _ => ?_, ?_, rfl, fun hcon => by cases hcon⟩
        · simp only [upd_other _ _ _ _ hft, hfs]
          simp
        · simp [upd_same]
        · intro q hq
          simp [upd_other _ _ _ _ hq]

/-- Witness for C6 at an archived upload whose transfer step raises SDK
error 3. -/
theorem upload_file_transfer_failure_witness :
    wFile.fs ("dir/file.txt".data) = some (.file (.raw [7, 8])) ∧
    upload_file ⟨some ("data".data)⟩ (some 3) wFile ("dir/file.txt".data) true =
      ((upload_file ⟨some ("data".data)⟩ (some 3) wFile ("dir/file.txt".data) true).1,
        (upload_file ⟨some ("data".data)⟩ (some 3) wFile ("dir/file.txt".data) true).2) ∧
    ((upload_file ⟨some ("data".data)⟩ (some 3) wFile ("dir/file.txt".data) true).2 =
        Except.error (.sdkError 3) ∧
      (upload_file ⟨some ("data".data)⟩ (some 3) wFile ("dir/file.txt".data) true).1.fs
        ("dir/file.txt".data) ≠ none ∧
      (true = true →
        (upload_file ⟨some ("data".data)⟩ (some 3) wFile ("dir/file.txt".data) true).1.fs
          (tarPathOf ("dir/file.txt".data)) ≠ none) ∧
      (∀ q, q ≠ tarPathOf ("dir/file.txt".data) →
        (upload_file ⟨some ("data".data)⟩ (some 3) wFile ("dir/file.txt".data) true).1.fs q
          = wFile.fs q) ∧
      (upload_file ⟨some ("data".data)⟩ (some 3) wFile ("dir/file.txt".data) true).1.bucket
        = wFile.bucket ∧
      (true = false →
        (upload_file ⟨some ("data".data)⟩ (some 3) wFile ("dir/file.txt".data) true).1
          = wFile)) :=
  ⟨by decide, rfl,
    upload_file_transfer_failure ⟨some ("data".data)⟩ wFile _
      ("dir/file.txt".data) true 3 _ (.raw [7, 8]) (by decide) rfl⟩

end FireBaseStorageClient

/-- A world holding a single extensionless file `a`. -/
def wNoExt : World :=
  { fs := upd (fun _ => none) ("a".data) (some (.file (.raw [1, 2, 3]))),
    bucket := fun _ => none }

namespace FireBaseStorageClient

/-- C7 counterexample: for the extensionless input `a` the regex finds no
proper extension and the derived archive name equals the input name, so
`gzopen` truncates the input before `tar.add` reads it: the archive that
is written does not contain the input file's bytes (it contains the
truncated, just-created archive instead), even though the derived path is
returned successfully. -/
theorem archive_file_no_extension_cex :
    wNoExt.fs ("a".data) = some (.file (.raw [1, 2, 3])) ∧
    tarPathOf ("a".data) = ("a".data) ∧
    (_archive_file wNoExt ("a".data)).2 = Except.ok (tarPathOf ("a".data)) ∧
    (_archive_file wNoExt ("a".data)).1.fs (tarPathOf ("a".data)) =
      some (.file (.targz 5 [("a".data, contentBytes (.targz 5 []))])) ∧
    (_archive_file wNoExt ("a".data)).1.fs (tarPathOf ("a".data)) ≠
      some (.file (.targz 5 [("a".data, contentBytes (.raw [1, 2, 3]))])) :=
  ⟨by decide, by decide, rfl, by decide, by decide⟩

/-- C7 (amended): for every existing regular file whose derived archive
name differs from its own path (in particular any name with a conventional
extension), `_archive_file` writes, at the derived path in the same
directory, a gzip-compressed tar archive at compression level 5 containing
exactly the one input file stored under its base name, touches nothing
else, does not delete the input, and returns the archive path. -/
theorem archive_file_spec (w : World) (path : FPath) (c : FileContent)
    (hfs : w.fs path = some (.file c))
    (hne : tarPathOf path ≠ path) :
    _archive_file w path =
      ({ w with
          fs := upd w.fs (tarPathOf path)
            (some (.file (.targz 5 [((splitPath path).2, contentBytes c)]))) },
        .ok (tarPathOf path)) :=
  archive_file_ok w path c hfs hne

/-- Witness for the amended C7 at `dir/file.txt`. -/
theorem archive_file_spec_witness :
    wFile.fs ("dir/file.txt".data) = some (.file (.raw [7, 8])) ∧
    tarPathOf ("dir/file.txt".data) ≠ ("dir/file.txt".data) ∧
    _archive_file wFile ("dir/file.txt".data) =
      ({ wFile with
          fs := upd wFile.fs (tarPathOf ("dir/file.txt".data))
            (some (.file (.targz 5
              [((splitPath ("dir/file.txt".data)).2, contentBytes (.raw [7, 8]))]))) },
        .ok (tarPathOf ("dir/file.txt".data))) :=
  ⟨by decide, by decide,
    archive_file_spec wFile ("dir/file.txt".data) (.raw [7, 8]) (by decide)
      (by decide)⟩

end FireBaseStorageClient

/-! Facts about the regex substitution needed for the roundtrip claim. -/

theorem reSubExtTarGz_ne_nil (t : FPath) (h : t ≠ []) : reSubExtTarGz t ≠ [] := by
  cases t with
  | nil => exact absurd rfl h
  | cons c rest =>
      unfold reSubExtTarGz
      split
      · decide
      · simp

theorem reSubExtTarGz_all_ne_slash (t : FPath)
    (h : t.all (fun c => c ≠ '/') = true) :
    (reSubExtTarGz t).all (fun c => c ≠ '/') = true := by
  induction t with
  | nil => decide
  | cons c rest ih =>
      simp only [List.all_cons, Bool.and_eq_true] at h
      unfold reSubExtTarGz
      split
      · decide
      · simp only [List.all_cons, Bool.and_eq_true]
        exact ⟨h.1, ih h.2⟩

namespace FireBaseStorageClient

/-- C8: for a file `F = joinPath hd tl` with a normalized directory part, a
slash-free name and a conventional extension (the regex substitution
changes the name), the composition stated by the spec behaves as claimed:
archiving `F` and extracting the archive restores a byte-identical file at
`F` whose base name is `baseName F`, deletes the intermediate archive, and
re-archiving the result succeeds and stores exactly `F`'s bytes under its
base name. -/
theorem archive_extract_roundtrip (w : World) (hd tl : FPath) (b : List Nat)
    (htl : tl ≠ []) (htls : tl.all (fun ch => ch ≠ '/') = true)
    (hhd : hd.all (fun ch => ch = '/') = true ∨ hd.getLast? ≠ some '/')
    (hconv : reSubExtTarGz tl ≠ tl)
    (hfs : w.fs (joinPath hd tl) = some (.file (.raw b))) :
    (_archive_file w (joinPath hd tl)).2 =
      Except.ok (tarPathOf (joinPath hd tl)) ∧
    (_extract (_archive_file w (joinPath hd tl)).1
        (tarPathOf (joinPath hd tl))).2 = Except.ok (joinPath hd tl) ∧
    basenameP (joinPath hd tl) = tl ∧
    (_extract (_archive_file w (joinPath hd tl)).1
        (tarPathOf (joinPath hd tl))).1.fs (joinPath hd tl) =
      some (.file (.raw b)) ∧
    (_extract (_archive_file w (joinPath hd tl)).1
        (tarPathOf (joinPath hd tl))).1.fs (tarPathOf (joinPath hd tl)) = none ∧
    (_archive_file (_extract (_archive_file w (joinPath hd tl)).1
        (tarPathOf (joinPath hd tl))).1 (joinPath hd tl)).2 =
      Except.ok (tarPathOf (joinPath hd tl)) ∧
    (_archive_file (_extract (_archive_file w (joinPath hd tl)).1
        (tarPathOf (joinPath hd tl))).1 (joinPath hd tl)).1.fs
        (tarPathOf (joinPath hd tl)) =
      some (.file (.targz 5 [(tl, b)])) := by
  have hsplitF : splitPath (joinPath hd tl) = (hd, tl) :=
    splitPath_joinPath hd tl htl htls hhd
  have hsub_ne : reSubExtTarGz tl ≠ [] := reSubExtTarGz_ne_nil tl htl
  have hsub_s : (reSubExtTarGz tl).all (fun ch => ch ≠ '/') = true :=
    reSubExtTarGz_all_ne_slash tl htls
  have hsplitT : splitPath (joinPath hd (reSubExtTarGz tl)) =
      (hd, reSubExtTarGz tl) :=
    splitPath_joinPath hd _ hsub_ne hsub_s hhd
  have hTdef : tarPathOf (joinPath hd tl) = joinPath hd (reSubExtTarGz tl) := by
    unfold tarPathOf
    rw [hsplitF]
  have hTneF : tarPathOf (joinPath hd tl) ≠ joinPath hd tl := by
    rw [hTdef]
    intro hcon
    have hsp := congrArg splitPath hcon
    rw [hsplitT, hsplitF] at hsp
    exact hconv (congrArg Prod.snd hsp)
  have hFneT : joinPath hd tl ≠ tarPathOf (joinPath hd tl) := Ne.symm hTneF
  have harc := archive_file_ok w (joinPath hd tl) (.raw b) hfs hTneF
  rw [hsplitF] at harc
  simp only [contentBytes] at harc
  have h1 : ((_archive_file w (joinPath hd tl)).1).fs
      (tarPathOf (joinPath hd tl)) = some (.file (.targz 5 [(tl, b)])) := by
    rw [harc]
    simp [upd_same]
  have h2 : joinPath (splitPath (tarPathOf (joinPath hd tl))).1 tl ≠
      tarPathOf (joinPath hd tl) := by
    rw [hTdef, hsplitT]
    have hgoal := hFneT
    rw [hTdef] at hgoal
    exact hgoal
  have hext := extract_ok ((_archive_file w (joinPath hd tl)).1)
    (tarPathOf (joinPath hd tl)) 5 tl b h1 h2
  have hj : joinPath (splitPath (tarPathOf (joinPath hd tl))).1 tl =
      joinPath hd tl := by
    rw [hTdef, hsplitT]
  rw [hj] at hext
  have h4 : (_extract (_archive_file w (joinPath hd tl)).1
      (tarPathOf (joinPath hd tl))).1.fs (joinPath hd tl) =
      some (.file (.raw b)) := by
    rw [hext, harc]
    simp only [upd_other _ _ _ _ hFneT, upd_same]
  have h5 : (_extract (_archive_file w (joinPath hd tl)).1
      (tarPathOf (joinPath hd tl))).1.fs (tarPathOf (joinPath hd tl)) = none := by
    rw [hext]
    simp only [upd_same]
  have harc2 := archive_file_ok ((_extract (_archive_file w (joinPath hd tl)).1
    (tarPathOf (joinPath hd tl))).1) (joinPath hd tl) (.raw b) h4 hTneF
  rw [hsplitF] at harc2
  simp only [contentBytes] at harc2
  refine ⟨by rw [harc], by rw [hext], ?_, h4, h5, by rw [harc2], ?_⟩
  · unfold basenameP
    rw [hsplitF]
  · rw [harc2]
    simp only [upd_same]

end FireBaseStorageClient

namespace FireBaseStorageClient

/-- Witness for C8 at `dir/file.txt` with bytes `[7, 8]`. -/
theorem archive_extract_roundtrip_witness :
    ("file.txt".data : FPath) ≠ [] ∧
    ("file.txt".data : FPath).all (fun ch => ch ≠ '/') = true ∧
    (("dir".data : FPath).all (fun ch => ch = '/') = true ∨
      ("dir".data : FPath).getLast? ≠ some '/') ∧
    reSubExtTarGz ("file.txt".data) ≠ ("file.txt".data) ∧
    wFile.fs (joinPath ("dir".data) ("file.txt".data)) =
      some (.file (.raw [7, 8])) ∧
    (_extract (_archive_file wFile (joinPath ("dir".data) ("file.txt".data))).1
        (tarPathOf (joinPath ("dir".data) ("file.txt".data)))).2 =
      Except.ok (joinPath ("dir".data) ("file.txt".data)) ∧
    (_extract (_archive_file wFile (joinPath ("dir".data) ("file.txt".data))).1
        (tarPathOf (joinPath ("dir".data) ("file.txt".data)))).1.fs
        (joinPath ("dir".data) ("file.txt".data)) =
      some (.file (.raw [7, 8])) ∧
    (_archive_file (_extract (_archive_file wFile
        (joinPath ("dir".data) ("file.txt".data))).1
        (tarPathOf (joinPath ("dir".data) ("file.txt".data)))).1
        (joinPath ("dir".data) ("file.txt".data))).1.fs
        (tarPathOf (joinPath ("dir".data) ("file.txt".data))) =
      some (.file (.targz 5 [("file.txt".data, [7, 8])])) :=
  ⟨by decide, by decide, by decide, by decide, by decide,
    (archive_extract_roundtrip wFile ("dir".data) ("file.txt".data) [7, 8]
      (by decide) (by decide) (by decide) (by decide) (by decide)).2.1,
    (archive_extract_roundtrip wFile ("dir".data) ("file.txt".data) [7, 8]
      (by decide) (by decide) (by decide) (by decide) (by decide)).2.2.2.1,
    (archive_extract_roundtrip wFile ("dir".data) ("file.txt".data) [7, 8]
      (by decide) (by decide) (by decide) (by decide) (by decide)).2.2.2.2.2.2⟩

end FireBaseStorageClient
